import Mathlib

/-!
Shallow embedding of the core of the zoneless-node client library:
the webhook signature verifier (class Webhooks, file src/resources/LoginLinks.ts),
the batch payout orchestrator `processBatch`, the settlement loop `processAll`
and the local signer `SignTransaction` (file src/resources/Payouts.ts).

Remote HTTP calls are modelled as functions supplied by an environment record;
every orchestration function also returns the ordered list of calls it performed,
so that claims about which calls happen (and with which arguments) are statable.
-/

namespace Zoneless

/-! ## Webhook header parsing (Webhooks.ParseHeader) -/

/-- A value stored in the header record: JavaScript keeps either a single
string or an array of strings per key (`string | string[]`). -/
inductive HVal where
  | one (s : String)
  | many (ss : List String)
deriving DecidableEq, Repr

/-- JavaScript `String.prototype.split` with a one-character separator, on
the character list: splitting the empty text yields one empty piece, and a
trailing separator yields a trailing empty piece. -/
def jsSplitAux (sep : Char) : List Char → List (List Char)
  | [] => [[]]
  | c :: cs =>
      let rest := jsSplitAux sep cs
      if c = sep then [] :: rest
      else
        match rest with
        | [] => [[c]]
        | r :: rs => (c :: r) :: rs

/-- JavaScript `s.split(sep)` for a one-character separator. -/
def jsSplit (sep : Char) (s : String) : List String :=
  (jsSplitAux sep s.data).map (fun cs => String.mk cs)

/-- One item of the comma-separated header, split at `=`; kept only when both
the key and the value are non-empty (JS truthiness of `key && value`).
`split('=')` destructuring takes the first two components. -/
def headerItemPair (item : String) : Option (String × String) :=
  match jsSplit '=' item with
  | key :: value :: _ =>
      if key.length > 0 && value.length > 0 then some (key, value) else none
  | _ => none

/-- The record-update step of the `reduce` in `ParseHeader`: a fresh key is
appended; a key already present is promoted from a scalar to a two-element
array, or pushed onto the existing array. -/
def insertHeaderPair : List (String × HVal) → String → String → List (String × HVal)
  | [], key, value => [(key, HVal.one value)]
  | (k, v) :: rest, key, value =>
      if k = key then
        (match v with
          | HVal.one s => (key, HVal.many [s, value])
          | HVal.many ss => (key, HVal.many (ss ++ [value]))) :: rest
      else (k, v) :: insertHeaderPair rest key value

/-- `Webhooks.ParseHeader`: split the header at commas and accumulate the
`key=value` items into a record, modelled as an association list. -/
def parseHeader (header : String) : List (String × HVal) :=
  (jsSplit ',' header).foldl
    (fun acc item =>
      match headerItemPair item with
      | some p => insertHeaderPair acc p.1 p.2
      | none => acc)
    []

/-- Record field access (`details[key]`), first matching entry. -/
def headerGet : List (String × HVal) → String → Option HVal
  | [], _ => none
  | (k, v) :: rest, key => if k = key then some v else headerGet rest key

/-- `Array.isArray(x) ? x[0] : x` — the first stored value. -/
def hvalHead : HVal → String
  | HVal.one s => s
  | HVal.many ss => ss.headD ""

/-- `Array.isArray(x) ? x : [x]` — all stored values, in insertion order. -/
def hvalToList : HVal → List String
  | HVal.one s => [s]
  | HVal.many ss => ss

/-- All values recorded under `key`, in insertion order ([] when absent). -/
def headerValuesOf (details : List (String × HVal)) (key : String) : List String :=
  match headerGet details key with
  | some v => hvalToList v
  | none => []

/-- The timestamp string the verifier reads from a header. -/
def headerTimestampStr (header : String) : Option String :=
  (headerGet (parseHeader header) "t").map hvalHead

/-- The ordered list of `v1` signature candidates of a header. -/
def headerSignatures (header : String) : List String :=
  headerValuesOf (parseHeader header) "v1"

/-! ## JavaScript number primitives used by Webhooks.Verify -/

/-- `parseInt(s, 10)`: skip leading whitespace, an optional sign, then a
decimal-digit prefix; `none` models `NaN` (no digits found). -/
def parseIntJS (s : String) : Option Int :=
  let cs := s.data.dropWhile (fun c => c.isWhitespace)
  let signed : Bool × List Char :=
    match cs with
    | '-' :: rest => (true, rest)
    | '+' :: rest => (false, rest)
    | _ => (false, cs)
  let ds := signed.2.takeWhile (fun c => c.isDigit)
  if ds.isEmpty then none
  else
    let n : Nat := ds.foldl (fun n c => 10 * n + (c.toNat - '0'.toNat)) 0
    some (if signed.1 then -(n : Int) else (n : Int))

/-- The comparison `now - timestamp > tolerance`: any comparison against
`NaN` is false in JavaScript. -/
def jsGtNaN (now : Int) (ts : Option Int) (tolerance : Int) : Bool :=
  match ts with
  | some t => decide (now - t > tolerance)
  | none => false

/-- Template-literal rendering `${timestamp}` of the parsed number
(`NaN` renders as the string NaN). -/
def jsNumString : Option Int → String
  | some t => toString t
  | none => "NaN"

/-! ## Webhooks.Verify -/

/-- The three failure messages `Verify` can throw
(`WebhookSignatureVerificationError`), named after the spec's taxonomy:
`missingSignature` is "Unable to extract timestamp and signatures from header",
`timestampTolerance` is "Timestamp outside the tolerance zone",
`signatureMismatch` is "No signatures found matching the expected signature
for payload". -/
inductive VerifyError where
  | missingSignature
  | timestampTolerance
  | signatureMismatch
deriving DecidableEq, Repr

/-- `Webhooks.Verify(payload, header, secret, tolerance)`. The HMAC-SHA256
hex digest (node `crypto`) is abstracted as the parameter `hmac secret msg`;
`now` is `Math.floor(Date.now() / 1000)`. `timingSafeEqual` on equal-length
byte buffers is byte-for-byte equality, hence string equality after the
byte-length guard. -/
def Verify (hmac : String → String → String) (now : Int)
    (payload header secret : String) (tolerance : Int) : Except VerifyError Unit :=
  let details := parseHeader header
  match headerGet details "t", headerGet details "v1" with
  | some tVal, some v1Val =>
      let timestampStr := hvalHead tVal
      let timestamp := parseIntJS timestampStr
      if decide (tolerance > 0) && jsGtNaN now timestamp tolerance then
        Except.error VerifyError.timestampTolerance
      else
        let signedPayload := jsNumString timestamp ++ "." ++ payload
        let expectedSignature := hmac secret signedPayload
        let signatures := hvalToList v1Val
        if signatures.any (fun sig =>
            sig.utf8ByteSize == expectedSignature.utf8ByteSize
              && sig == expectedSignature) then
          Except.ok ()
        else
          Except.error VerifyError.signatureMismatch
  | _, _ => Except.error VerifyError.missingSignature

/-! ## The spec's description of v1 accumulation, for comparison with the code

The spec says parsing must accumulate all `v1` values into an ordered list in
first-seen order. The following definition is written from those words
(a direct left-to-right collection over the comma-separated items), to be
compared with the record-based accumulation of `ParseHeader`. -/

/-- All values recorded under `key` by a single left-to-right pass, in
first-seen order: the spec's ordered-list description. -/
def specHeaderValues (header key : String) : List String :=
  (jsSplit ',' header).filterMap
    (fun item =>
      match headerItemPair item with
      | some p => if p.1 = key then some p.2 else none
      | none => none)

/-! ## Lemmas about header parsing -/

theorem headerValuesOf_insert (acc : List (String × HVal)) (k v key : String) :
    headerValuesOf (insertHeaderPair acc k v) key =
      if k = key then headerValuesOf acc key ++ [v] else headerValuesOf acc key := by
  induction acc with
  | nil =>
      by_cases h : k = key <;>
        simp [insertHeaderPair, headerValuesOf, headerGet, hvalToList, h]
  | cons hd tl ih =>
      obtain ⟨k', v'⟩ := hd
      by_cases hk : k' = k
      · subst hk
        by_cases h : k' = key
        · subst h
          cases v' <;>
            simp [insertHeaderPair, headerValuesOf, headerGet, hvalToList]
        · cases v' <;>
            simp [insertHeaderPair, headerValuesOf, headerGet, hvalToList, h]
      · simp only [insertHeaderPair, if_neg hk]
        by_cases h : k' = key
        · subst h
          have hne : ¬ k = k' := fun he => hk he.symm
          simp [headerValuesOf, headerGet, hne]
        · have h1 : headerValuesOf ((k', v') :: insertHeaderPair tl k v) key =
              headerValuesOf (insertHeaderPair tl k v) key := by
            simp [headerValuesOf, headerGet, h]
          have h2 : headerValuesOf ((k', v') :: tl) key = headerValuesOf tl key := by
            simp [headerValuesOf, headerGet, h]
          rw [h1, h2, ih]

theorem headerValuesOf_fold (items : List String) (acc : List (String × HVal)) (key : String) :
    headerValuesOf
      (items.foldl
        (fun acc item =>
          match headerItemPair item with
          | some p => insertHeaderPair acc p.1 p.2
          | none => acc)
        acc) key =
      headerValuesOf acc key ++
        items.filterMap
          (fun item =>
            match headerItemPair item with
            | some p => if p.1 = key then some p.2 else none
            | none => none) := by
  induction items generalizing acc with
  | nil => simp
  | cons hd tl ih =>
      simp only [List.foldl_cons, List.filterMap_cons]
      cases hp : headerItemPair hd with
      | none => simp [hp, ih]
      | some p =>
          simp only [hp, ih, headerValuesOf_insert]
          by_cases h : p.1 = key
          · simp [h]
          · simp [h]

/-- The record built by `ParseHeader` stores, under each key, exactly the
values of that key in first-seen order: the code's scalar/array promotion
refines the spec's ordered-list description. -/
theorem headerValuesOf_parseHeader (header key : String) :
    headerValuesOf (parseHeader header) key = specHeaderValues header key := by
  unfold parseHeader specHeaderValues
  rw [headerValuesOf_fold]
  simp [headerValuesOf, headerGet]

theorem headerGet_eq_some_of_timestampStr {header : String} {ts : String}
    (h : headerTimestampStr header = some ts) :
    ∃ tVal, headerGet (parseHeader header) "t" = some tVal ∧ hvalHead tVal = ts := by
  unfold headerTimestampStr at h
  cases hg : headerGet (parseHeader header) "t" with
  | none => rw [hg] at h; simp at h
  | some tVal =>
      rw [hg] at h
      simp only [Option.map_some'] at h
      exact ⟨tVal, rfl, by injection h⟩

theorem headerGet_eq_some_of_signatures {header : String}
    (h : headerSignatures header ≠ []) :
    ∃ v1Val, headerGet (parseHeader header) "v1" = some v1Val ∧
      hvalToList v1Val = headerSignatures header := by
  cases hg : headerGet (parseHeader header) "v1" with
  | none =>
      exfalso
      apply h
      simp [headerSignatures, headerValuesOf, hg]
  | some v1Val =>
      refine ⟨v1Val, rfl, ?_⟩
      simp [headerSignatures, headerValuesOf, hg]

theorem signatures_any_iff (sigs : List String) (expected : String) :
    (sigs.any (fun sig =>
        sig.utf8ByteSize == expected.utf8ByteSize && sig == expected) = true) ↔
      expected ∈ sigs := by
  constructor
  · intro h
    obtain ⟨sig, hmem, hsig⟩ := List.any_eq_true.mp h
    simp only [Bool.and_eq_true, beq_iff_eq] at hsig
    exact hsig.2 ▸ hmem
  · intro h
    exact List.any_eq_true.mpr ⟨expected, h, by simp⟩

/-! ## Payout data model (src/types/Payout.ts, the fields the orchestrator touches) -/

/-- `PayoutStatus`. -/
inductive PayoutStatus where
  | pending
  | processing
  | in_transit
  | paid
  | failed
  | canceled
deriving DecidableEq, Repr

/-- A `Payout` object; the orchestrator reads only `id` and passes whole
payout objects through, so the remaining server-owned attributes are the
principal ones of the interface. -/
structure Payout where
  id : String
  amount : Int
  currency : String
  destination : String
  status : PayoutStatus
  failure_message : Option String := none
deriving DecidableEq, Repr

/-- `ListResponse<Payout>` (types/ApiResponse): `data` page plus `has_more`. -/
structure PayoutListResponse where
  has_more : Bool
  data : List Payout
deriving DecidableEq, Repr

/-- Coarse batch status `'paid' | 'failed'`. -/
inductive BatchStatus where
  | paid
  | failed
deriving DecidableEq, Repr

/-- `PayoutBatchBuildResponse`. -/
structure PayoutBatchBuildResponse where
  unsigned_transaction : String
  estimated_fee_lamports : Int
  blockhash : String
  last_valid_block_height : Int
  payouts : List Payout
  total_amount : Int
  recipients_count : Int
deriving DecidableEq, Repr

/-- `PayoutBatchBroadcastResponse`. -/
structure PayoutBatchBroadcastResponse where
  signature : String
  status : BatchStatus
  viewer_url : String
  payouts : List Payout
  failure_message : Option String := none
deriving DecidableEq, Repr

/-- `ProcessPendingResult`, the value of one settlement round. -/
structure ProcessPendingResult where
  signature : String
  status : BatchStatus
  viewer_url : String
  payouts : List Payout
  total_amount : Int
  has_more : Bool
  failure_message : Option String := none
deriving DecidableEq, Repr

/-- A remote call failure (rejected promise from list/build/broadcast),
carried unmodified; the message is all the orchestrator ever looks at. -/
structure RemoteError where
  message : String
deriving DecidableEq, Repr

/-! ## The remote environment and the call trace -/

/-- One remote (or local-signing) operation performed by the orchestrator,
with the arguments it received. -/
inductive CallEvent where
  | listCall (status : String) (limit : Int)
  | buildCall (payouts : List String)
  | signCall (unsigned_transaction : String)
  | broadcastCall (signed_transaction : String) (payouts : List String)
deriving DecidableEq, Repr

/-- The three server endpoints one round talks to, as functions of the
arguments the orchestrator sends (`list` receives the effective limit; the
status filter is always the string pending). -/
structure RoundEnv where
  list : Int → Except RemoteError PayoutListResponse
  build : List String → Except RemoteError PayoutBatchBuildResponse
  broadcast : String → List String → Except RemoteError PayoutBatchBroadcastResponse

/-! ## Payouts.processBatch -/

/-- `Payouts.processBatch(secretKey, options)`: clamp the limit, list pending
payouts, short-circuit on an empty page, otherwise build, locally sign and
broadcast. `signFn unsigned secretKey` stands for `SignTransaction` (its body
is the external signer, see the Signer section). The second component is the
ordered trace of calls performed, the failing call included. -/
def processBatch (env : RoundEnv) (signFn : String → String → String)
    (secretKey : String) (limitOpt : Option Int) :
    Except RemoteError ProcessPendingResult × List CallEvent :=
  let limit := min (limitOpt.getD 10) 10
  match env.list limit with
  | Except.error e => (Except.error e, [CallEvent.listCall "pending" limit])
  | Except.ok pendingPayouts =>
    if pendingPayouts.data.length = 0 then
      (Except.ok
        { signature := ""
          status := BatchStatus.paid
          viewer_url := ""
          payouts := []
          total_amount := 0
          has_more := false },
       [CallEvent.listCall "pending" limit])
    else
      let payoutIds := pendingPayouts.data.map (fun p => p.id)
      match env.build payoutIds with
      | Except.error e =>
          (Except.error e,
           [CallEvent.listCall "pending" limit, CallEvent.buildCall payoutIds])
      | Except.ok buildResult =>
          let signedTransaction := signFn buildResult.unsigned_transaction secretKey
          match env.broadcast signedTransaction payoutIds with
          | Except.error e =>
              (Except.error e,
               [CallEvent.listCall "pending" limit, CallEvent.buildCall payoutIds,
                CallEvent.signCall buildResult.unsigned_transaction,
                CallEvent.broadcastCall signedTransaction payoutIds])
          | Except.ok broadcastResult =>
              (Except.ok
                { signature := broadcastResult.signature
                  status := broadcastResult.status
                  viewer_url := broadcastResult.viewer_url
                  payouts := broadcastResult.payouts
                  total_amount := buildResult.total_amount
                  has_more := pendingPayouts.has_more
                  failure_message := broadcastResult.failure_message },
               [CallEvent.listCall "pending" limit, CallEvent.buildCall payoutIds,
                CallEvent.signCall buildResult.unsigned_transaction,
                CallEvent.broadcastCall signedTransaction payoutIds])

/-! ## Payouts.processAll -/

/-- The `while (hasMore)` loop of `processAll`. The server's state across
rounds is modelled by giving each round index its own environment. `fuel`
bounds how many further iterations are unfolded: `none` in the first
component means the loop was still running when the fuel ran out (the
JavaScript loop has no intrinsic bound). Rounds whose result has an empty
payout list are not appended. -/
def processAllAux (env : Nat → RoundEnv) (signFn : String → String → String)
    (secretKey : String) :
    Nat → Nat → List ProcessPendingResult → List CallEvent →
      Option (Except RemoteError (List ProcessPendingResult)) × List CallEvent
  | 0, _, _, trace => (none, trace)
  | fuel + 1, round, results, trace =>
    match processBatch (env round) signFn secretKey none with
    | (Except.error e, tr) => (some (Except.error e), trace ++ tr)
    | (Except.ok result, tr) =>
        let results' :=
          if result.payouts.length > 0 then results ++ [result] else results
        if result.has_more then
          processAllAux env signFn secretKey fuel (round + 1) results' (trace ++ tr)
        else
          (some (Except.ok results'), trace ++ tr)

/-- `Payouts.processAll(secretKey, options)`: run settlement rounds from an
empty accumulator, starting at round 0. -/
def processAll (env : Nat → RoundEnv) (signFn : String → String → String)
    (secretKey : String) (fuel : Nat) :
    Option (Except RemoteError (List ProcessPendingResult)) × List CallEvent :=
  processAllAux env signFn secretKey fuel 0 [] []

/-! ## The local Signer (Payouts.SignTransaction)

`SignTransaction` decodes the base58 secret key (`bs58.decode` then
`Keypair.fromSecretKey`), decodes the base64 transaction text
(`Buffer.from(..., base64)` then `Transaction.from`), signs it
(`transaction.partialSign(keypair)`) and re-encodes it
(`transaction.serialize().toString(base64)`). Those four primitives live in
the external packages `@solana/web3.js` and `bs58`, which are not part of
this repository, so they are abstracted below and the signing pipeline is
modelled from the spec. -/

/-- Modelled from the spec: the binary transaction structure the transport
text decodes to — a list of attached signatures plus the signable message
(the missing code is @solana/web3.js `Transaction`). -/
structure SolTransaction where
  signatures : List (List Nat)
  message : List Nat
deriving DecidableEq, Repr

/-- Signer failure kinds of the spec: `DecodeError` when an input is not
validly encoded, `MalformedTransactionError` when the decoded blob is not a
transaction structure. -/
inductive SignerError where
  | decodeError
  | malformedTransactionError
deriving DecidableEq, Repr

/-- Modelled from the spec: the external cryptographic and codec primitives
used by `SignTransaction` (bs58 key decoding, base64 transaction
decoding/encoding, and ed25519 signing of the signable message), which are
library code missing from this repository. -/
structure SignerPrims where
  bs58Decode : String → Option (List Nat)
  txDecode : String → Option SolTransaction
  txEncode : SolTransaction → String
  signMessage : List Nat → List Nat → List Nat

/-- Modelled from the spec: `Payouts.SignTransaction(unsignedTransaction,
secretKey)` — decode the secret-key text, decode the transaction text,
attach exactly one signature produced with the decoded key over the
transaction's signable message, and re-encode the now-signed transaction to
the same textual form used for transport. -/
def SignTransaction (prims : SignerPrims) (unsignedTransaction secretKey : String) :
    Except SignerError String :=
  match prims.bs58Decode secretKey with
  | none => Except.error SignerError.decodeError
  | some keyBytes =>
    match prims.txDecode unsignedTransaction with
    | none => Except.error SignerError.malformedTransactionError
    | some transaction =>
        let signed : SolTransaction :=
          { transaction with
              signatures :=
                transaction.signatures ++
                  [prims.signMessage keyBytes transaction.message] }
        Except.ok (prims.txEncode signed)

/-! ## Concrete instances used to exercise the theorems -/

/-- A pending payout with a given identifier. -/
def witnessPayout (i : String) : Payout :=
  { id := i, amount := 250, currency := "usdc", destination := "dest",
    status := PayoutStatus.pending }

/-- A local signer stub: tag the transaction text. -/
def stubSign : String → String → String := fun u _ => u ++ ":signed"

/-- An environment whose pending-payout page is empty. -/
def emptyListEnv : RoundEnv :=
  { list := fun _ => Except.ok { has_more := false, data := [] }
    build := fun _ => Except.error { message := "unreachable" }
    broadcast := fun _ _ => Except.error { message := "unreachable" } }

/-- An environment with two pending payouts and successful build/broadcast. -/
def twoPayoutEnv : RoundEnv :=
  { list := fun _ =>
      Except.ok { has_more := true, data := [witnessPayout "po_1", witnessPayout "po_2"] }
    build := fun pids => Except.ok
      { unsigned_transaction := "utx", estimated_fee_lamports := 5, blockhash := "bh",
        last_valid_block_height := 7, payouts := pids.map witnessPayout,
        total_amount := 500, recipients_count := pids.length }
    broadcast := fun _ pids => Except.ok
      { signature := "sg", status := BatchStatus.paid, viewer_url := "vu",
        payouts := pids.map witnessPayout } }

/-! ## Unfolding equations for processBatch -/

theorem processBatch_eq_of_build_error (env : RoundEnv)
    (signFn : String → String → String) (secretKey : String)
    (limitOpt : Option Int) (resp : PayoutListResponse) (e : RemoteError)
    (hlist : env.list (min (limitOpt.getD 10) 10) = Except.ok resp)
    (hne : resp.data ≠ [])
    (hbuild : env.build (resp.data.map (fun p => p.id)) = Except.error e) :
    processBatch env signFn secretKey limitOpt =
      (Except.error e,
       [CallEvent.listCall "pending" (min (limitOpt.getD 10) 10),
        CallEvent.buildCall (resp.data.map (fun p => p.id))]) := by
  have hlen : ¬ resp.data.length = 0 := fun h => hne (List.length_eq_zero.mp h)
  simp only [processBatch, hlist, hlen, if_false, hbuild]

theorem processBatch_eq_of_broadcast_error (env : RoundEnv)
    (signFn : String → String → String) (secretKey : String)
    (limitOpt : Option Int) (resp : PayoutListResponse)
    (bres : PayoutBatchBuildResponse) (e : RemoteError)
    (hlist : env.list (min (limitOpt.getD 10) 10) = Except.ok resp)
    (hne : resp.data ≠ [])
    (hbuild : env.build (resp.data.map (fun p => p.id)) = Except.ok bres)
    (hbc : env.broadcast (signFn bres.unsigned_transaction secretKey)
        (resp.data.map (fun p => p.id)) = Except.error e) :
    processBatch env signFn secretKey limitOpt =
      (Except.error e,
       [CallEvent.listCall "pending" (min (limitOpt.getD 10) 10),
        CallEvent.buildCall (resp.data.map (fun p => p.id)),
        CallEvent.signCall bres.unsigned_transaction,
        CallEvent.broadcastCall (signFn bres.unsigned_transaction secretKey)
          (resp.data.map (fun p => p.id))]) := by
  have hlen : ¬ resp.data.length = 0 := fun h => hne (List.length_eq_zero.mp h)
  simp only [processBatch, hlist, hlen, if_false, hbuild, hbc]

theorem processBatch_eq_of_ok (env : RoundEnv)
    (signFn : String → String → String) (secretKey : String)
    (limitOpt : Option Int) (resp : PayoutListResponse)
    (bres : PayoutBatchBuildResponse) (bcres : PayoutBatchBroadcastResponse)
    (hlist : env.list (min (limitOpt.getD 10) 10) = Except.ok resp)
    (hne : resp.data ≠ [])
    (hbuild : env.build (resp.data.map (fun p => p.id)) = Except.ok bres)
    (hbc : env.broadcast (signFn bres.unsigned_transaction secretKey)
        (resp.data.map (fun p => p.id)) = Except.ok bcres) :
    processBatch env signFn secretKey limitOpt =
      (Except.ok
        { signature := bcres.signature
          status := bcres.status
          viewer_url := bcres.viewer_url
          payouts := bcres.payouts
          total_amount := bres.total_amount
          has_more := resp.has_more
          failure_message := bcres.failure_message },
       [CallEvent.listCall "pending" (min (limitOpt.getD 10) 10),
        CallEvent.buildCall (resp.data.map (fun p => p.id)),
        CallEvent.signCall bres.unsigned_transaction,
        CallEvent.broadcastCall (signFn bres.unsigned_transaction secretKey)
          (resp.data.map (fun p => p.id))]) := by
  have hlen : ¬ resp.data.length = 0 := fun h => hne (List.length_eq_zero.mp h)
  simp only [processBatch, hlist, hlen, if_false, hbuild, hbc]

theorem processBatch_eq_of_empty (env : RoundEnv)
    (signFn : String → String → String) (secretKey : String)
    (limitOpt : Option Int) (resp : PayoutListResponse)
    (hlist : env.list (min (limitOpt.getD 10) 10) = Except.ok resp)
    (hempty : resp.data = []) :
    processBatch env signFn secretKey limitOpt =
      (Except.ok
        { signature := ""
          status := BatchStatus.paid
          viewer_url := ""
          payouts := []
          total_amount := 0
          has_more := false
          failure_message := none },
       [CallEvent.listCall "pending" (min (limitOpt.getD 10) 10)]) := by
  simp only [processBatch, hlist, hempty]
  simp

/-- The first operation of any round is the list call with the clamped limit. -/
theorem processBatch_trace_head (env : RoundEnv)
    (signFn : String → String → String) (secretKey : String)
    (limitOpt : Option Int) :
    (processBatch env signFn secretKey limitOpt).2.head? =
      some (CallEvent.listCall "pending" (min (limitOpt.getD 10) 10)) := by
  cases hl : env.list (min (limitOpt.getD 10) 10) with
  | error e => simp [processBatch, hl]
  | ok resp =>
      by_cases hlen : resp.data.length = 0
      · simp [processBatch, hl, hlen]
      · cases hb : env.build (resp.data.map (fun p => p.id)) with
        | error e => simp [processBatch, hl, hlen, hb]
        | ok bres =>
            cases hbc : env.broadcast (signFn bres.unsigned_transaction secretKey)
                (resp.data.map (fun p => p.id)) with
            | error e => simp [processBatch, hl, hlen, hb, hbc]
            | ok bcres => simp [processBatch, hl, hlen, hb, hbc]

/-- Every identifier list handed to build or broadcast during one round is
the identifier list of the listed page. -/
theorem processBatch_call_ids (env : RoundEnv)
    (signFn : String → String → String) (secretKey : String)
    (limitOpt : Option Int) (resp : PayoutListResponse)
    (hlist : env.list (min (limitOpt.getD 10) 10) = Except.ok resp) :
    (∀ ps, CallEvent.buildCall ps ∈ (processBatch env signFn secretKey limitOpt).2 →
      ps = resp.data.map (fun p => p.id)) ∧
    (∀ s ps,
      CallEvent.broadcastCall s ps ∈ (processBatch env signFn secretKey limitOpt).2 →
      ps = resp.data.map (fun p => p.id)) := by
  by_cases hd : resp.data = []
  · rw [processBatch_eq_of_empty env signFn secretKey limitOpt resp hlist hd]
    constructor
    · intro ps hps
      simp at hps
    · intro s ps hps
      simp at hps
  · cases hb : env.build (resp.data.map (fun p => p.id)) with
    | error e =>
        rw [processBatch_eq_of_build_error env signFn secretKey limitOpt resp e
          hlist hd hb]
        constructor
        · intro ps hps
          simp only [List.mem_cons, List.not_mem_nil, or_false] at hps
          rcases hps with h | h <;> simp_all
        · intro s ps hps
          simp only [List.mem_cons, List.not_mem_nil, or_false] at hps
          rcases hps with h | h <;> simp_all
    | ok bres =>
        cases hbc : env.broadcast (signFn bres.unsigned_transaction secretKey)
            (resp.data.map (fun p => p.id)) with
        | error e =>
            rw [processBatch_eq_of_broadcast_error env signFn secretKey limitOpt resp
              bres e hlist hd hb hbc]
            constructor
            · intro ps hps
              simp only [List.mem_cons, List.not_mem_nil, or_false] at hps
              rcases hps with h | h | h | h <;> simp_all
            · intro s ps hps
              simp only [List.mem_cons, List.not_mem_nil, or_false] at hps
              rcases hps with h | h | h | h <;> simp_all
        | ok bcres =>
            rw [processBatch_eq_of_ok env signFn secretKey limitOpt resp
              bres bcres hlist hd hb hbc]
            constructor
            · intro ps hps
              simp only [List.mem_cons, List.not_mem_nil, or_false] at hps
              rcases hps with h | h | h | h <;> simp_all
            · intro s ps hps
              simp only [List.mem_cons, List.not_mem_nil, or_false] at hps
              rcases hps with h | h | h | h <;> simp_all

/-! ## Claims about Payouts.processBatch -/

/-- Claim C1: whenever the list call returns an empty payout page,
`processBatch` returns exactly the zero result (empty signature, status paid,
empty viewer url, no payouts, zero total, `has_more = false`) and the trace
of performed operations is the single list call: no build, no local signing,
no broadcast. -/
theorem processBatch_empty_short_circuit (env : RoundEnv)
    (signFn : String → String → String) (secretKey : String)
    (limitOpt : Option Int) (resp : PayoutListResponse)
    (hlist : env.list (min (limitOpt.getD 10) 10) = Except.ok resp)
    (hempty : resp.data = []) :
    processBatch env signFn secretKey limitOpt =
      (Except.ok
        { signature := ""
          status := BatchStatus.paid
          viewer_url := ""
          payouts := []
          total_amount := 0
          has_more := false
          failure_message := none },
       [CallEvent.listCall "pending" (min (limitOpt.getD 10) 10)]) :=
  processBatch_eq_of_empty env signFn secretKey limitOpt resp hlist hempty

/-- Witness for C1: the empty environment takes the short-circuit path. -/
theorem processBatch_empty_short_circuit_witness :
    emptyListEnv.list (min ((none : Option Int).getD 10) 10) =
        Except.ok { has_more := false, data := [] } ∧
      processBatch emptyListEnv stubSign "sk" none =
        (Except.ok
          { signature := ""
            status := BatchStatus.paid
            viewer_url := ""
            payouts := []
            total_amount := 0
            has_more := false
            failure_message := none },
         [CallEvent.listCall "pending" 10]) :=
  ⟨rfl, processBatch_empty_short_circuit emptyListEnv stubSign "sk" none
    { has_more := false, data := [] } rfl rfl⟩

/-- Claim C2: on a non-empty page, the identifier list sent to the build call
is exactly the listed payouts' identifiers in the order received, and every
broadcast call carries exactly that same identifier list (and when the build
call succeeds, the broadcast call with that identifier list is performed). -/
theorem processBatch_same_ids_to_build_and_broadcast (env : RoundEnv)
    (signFn : String → String → String) (secretKey : String)
    (limitOpt : Option Int) (resp : PayoutListResponse)
    (hlist : env.list (min (limitOpt.getD 10) 10) = Except.ok resp)
    (hne : resp.data ≠ []) :
    (CallEvent.buildCall (resp.data.map Payout.id) ∈
        (processBatch env signFn secretKey limitOpt).2) ∧
      (∀ ps, CallEvent.buildCall ps ∈ (processBatch env signFn secretKey limitOpt).2 →
        ps = resp.data.map Payout.id) ∧
      (∀ s ps,
        CallEvent.broadcastCall s ps ∈ (processBatch env signFn secretKey limitOpt).2 →
        ps = resp.data.map Payout.id) ∧
      (∀ b, env.build (resp.data.map Payout.id) = Except.ok b →
        CallEvent.broadcastCall (signFn b.unsigned_transaction secretKey)
            (resp.data.map Payout.id) ∈
          (processBatch env signFn secretKey limitOpt).2) := by
  cases hb : env.build (resp.data.map (fun p => p.id)) with
  | error e =>
      rw [processBatch_eq_of_build_error env signFn secretKey limitOpt resp e
        hlist hne hb]
      refine ⟨by simp, ?_, ?_, ?_⟩
      · intro ps hps
        simp only [List.mem_cons, List.not_mem_nil, or_false] at hps
        rcases hps with h | h <;> simp_all
      · intro s ps hps
        simp only [List.mem_cons, List.not_mem_nil, or_false] at hps
        rcases hps with h | h <;> simp_all
      · intro b hb'
        simp at hb'
  | ok bres =>
      cases hbc : env.broadcast (signFn bres.unsigned_transaction secretKey)
          (resp.data.map (fun p => p.id)) with
      | error e =>
          rw [processBatch_eq_of_broadcast_error env signFn secretKey limitOpt resp
            bres e hlist hne hb hbc]
          refine ⟨by simp, ?_, ?_, ?_⟩
          · intro ps hps
            simp only [List.mem_cons, List.not_mem_nil, or_false] at hps
            rcases hps with h | h | h | h <;> simp_all
          · intro s ps hps
            simp only [List.mem_cons, List.not_mem_nil, or_false] at hps
            rcases hps with h | h | h | h <;> simp_all
          · intro b hb'
            injection hb' with h
            subst h
            simp
      | ok bcres =>
          rw [processBatch_eq_of_ok env signFn secretKey limitOpt resp
            bres bcres hlist hne hb hbc]
          refine ⟨by simp, ?_, ?_, ?_⟩
          · intro ps hps
            simp only [List.mem_cons, List.not_mem_nil, or_false] at hps
            rcases hps with h | h | h | h <;> simp_all
          · intro s ps hps
            simp only [List.mem_cons, List.not_mem_nil, or_false] at hps
            rcases hps with h | h | h | h <;> simp_all
          · intro b hb'
            injection hb' with h
            subst h
            simp

/-- Witness for C2: with two listed payouts, build receives both identifiers
in order and broadcast receives the same list. -/
theorem processBatch_same_ids_witness :
    twoPayoutEnv.list (min ((none : Option Int).getD 10) 10) =
        Except.ok { has_more := true,
                    data := [witnessPayout "po_1", witnessPayout "po_2"] } ∧
      CallEvent.buildCall ["po_1", "po_2"] ∈
        (processBatch twoPayoutEnv stubSign "sk" none).2 ∧
      CallEvent.broadcastCall "utx:signed" ["po_1", "po_2"] ∈
        (processBatch twoPayoutEnv stubSign "sk" none).2 := by
  have h := processBatch_same_ids_to_build_and_broadcast twoPayoutEnv stubSign "sk" none
    { has_more := true, data := [witnessPayout "po_1", witnessPayout "po_2"] }
    rfl (by decide)
  refine ⟨rfl, ?_, ?_⟩
  · simpa using h.1
  · simpa using h.2.2.2 _ rfl

/-- Claim C3: the effective limit passed to the list call is 10 both for any
caller-requested limit greater than 10 and for an omitted limit, and — when
the list call returns at most its limit many payouts — no build or broadcast
call ever carries more than 10 identifiers. -/
theorem processBatch_limit_clamped (env : RoundEnv)
    (signFn : String → String → String) (secretKey : String) :
    (∀ req : Int, 10 < req →
      (processBatch env signFn secretKey (some req)).2.head? =
        some (CallEvent.listCall "pending" 10)) ∧
    ((processBatch env signFn secretKey none).2.head? =
      some (CallEvent.listCall "pending" 10)) ∧
    (∀ limitOpt : Option Int, ∀ resp : PayoutListResponse,
      env.list (min (limitOpt.getD 10) 10) = Except.ok resp →
      (resp.data.length : Int) ≤ min (limitOpt.getD 10) 10 →
      (∀ ps, CallEvent.buildCall ps ∈ (processBatch env signFn secretKey limitOpt).2 →
        ps.length ≤ 10) ∧
      (∀ s ps,
        CallEvent.broadcastCall s ps ∈ (processBatch env signFn secretKey limitOpt).2 →
        ps.length ≤ 10)) := by
  refine ⟨?_, ?_, ?_⟩
  · intro req hreq
    have hmin : min ((some req).getD 10) 10 = 10 := by
      simp only [Option.getD_some]
      exact min_eq_right (le_of_lt hreq)
    have h := processBatch_trace_head env signFn secretKey (some req)
    rwa [hmin] at h
  · have h := processBatch_trace_head env signFn secretKey none
    simpa using h
  · intro limitOpt resp hlist hle
    have hlen10 : resp.data.length ≤ 10 := by
      have h10 : (min (limitOpt.getD 10) 10 : Int) ≤ 10 := min_le_right _ _
      have h := hle.trans h10
      exact_mod_cast h
    have hids := processBatch_call_ids env signFn secretKey limitOpt resp hlist
    constructor
    · intro ps hps
      have := hids.1 ps hps
      subst this
      simpa using hlen10
    · intro s ps hps
      have := hids.2 s ps hps
      subst this
      simpa using hlen10

/-- Witness for C3: a requested limit of 25 is clamped to 10, an omitted
limit defaults to 10, and with a two-payout page no more than 10 identifiers
reach build or broadcast. -/
theorem processBatch_limit_clamped_witness :
    ((10 : Int) < 25 ∧
      (processBatch twoPayoutEnv stubSign "sk" (some 25)).2.head? =
        some (CallEvent.listCall "pending" 10)) ∧
    ((processBatch twoPayoutEnv stubSign "sk" none).2.head? =
      some (CallEvent.listCall "pending" 10)) ∧
    (CallEvent.buildCall ["po_1", "po_2"] ∈
        (processBatch twoPayoutEnv stubSign "sk" none).2 →
      (["po_1", "po_2"] : List String).length ≤ 10) := by
  have h := processBatch_limit_clamped twoPayoutEnv stubSign "sk"
  refine ⟨⟨by norm_num, h.1 25 (by norm_num)⟩, h.2.1, ?_⟩
  intro hmem
  exact (h.2.2 none
    { has_more := true, data := [witnessPayout "po_1", witnessPayout "po_2"] }
    rfl (by norm_num)).1 _ hmem

/-! ## The settlement loop, characterized -/

/-- Unfolding of `processAllAux` over a run of rounds `start .. start + n` in
which every round returns successfully, rounds before the last report
`has_more` and the last does not: the loop performs exactly those rounds,
appends exactly the non-empty ones in order, and its trace is the
concatenation of the rounds' traces. -/
theorem processAllAux_spec (env : Nat → RoundEnv)
    (signFn : String → String → String) (secretKey : String)
    (rs : Nat → ProcessPendingResult) (ts : Nat → List CallEvent) :
    ∀ (n start fuel : Nat) (acc : List ProcessPendingResult) (trace : List CallEvent),
      (∀ i, i ≤ n → processBatch (env (start + i)) signFn secretKey none =
          (Except.ok (rs (start + i)), ts (start + i))) →
      (∀ i, i < n → (rs (start + i)).has_more = true) →
      ((rs (start + n)).has_more = false) →
      n < fuel →
      processAllAux env signFn secretKey fuel start acc trace =
        (some (Except.ok (acc ++
            ((List.range (n + 1)).map (fun i => rs (start + i))).filter
              (fun r => decide (r.payouts.length > 0)))),
         trace ++ ((List.range (n + 1)).map (fun i => ts (start + i))).flatten) := by
  intro n
  induction n with
  | zero =>
      intro start fuel acc trace h hlt hlast hfuel
      obtain ⟨f, rfl⟩ : ∃ f, fuel = f + 1 := ⟨fuel - 1, by omega⟩
      have h0 := h 0 (le_refl 0)
      simp only [Nat.add_zero] at h0 hlast
      simp only [processAllAux, h0, hlast]
      by_cases hp : (rs start).payouts.length > 0
      · simp [hp, List.range_succ]
      · have hp' : (rs start).payouts = [] :=
          List.eq_nil_of_length_eq_zero (by omega)
        simp [hp, hp', List.range_succ]
  | succ n ih =>
      intro start fuel acc trace h hlt hlast hfuel
      obtain ⟨f, rfl⟩ : ∃ f, fuel = f + 1 := ⟨fuel - 1, by omega⟩
      have h0 := h 0 (Nat.zero_le _)
      simp only [Nat.add_zero] at h0
      have hm0 : (rs start).has_more = true := by
        have := hlt 0 (Nat.succ_pos n)
        simpa using this
      have h' : ∀ i, i ≤ n →
          processBatch (env (start + 1 + i)) signFn secretKey none =
            (Except.ok (rs (start + 1 + i)), ts (start + 1 + i)) := by
        intro i hi
        have hh := h (i + 1) (by omega)
        rwa [show start + (i + 1) = start + 1 + i from by omega] at hh
      have hlt' : ∀ i, i < n → (rs (start + 1 + i)).has_more = true := by
        intro i hi
        have hh := hlt (i + 1) (by omega)
        rwa [show start + (i + 1) = start + 1 + i from by omega] at hh
      have hlast' : (rs (start + 1 + n)).has_more = false := by
        rwa [show start + (n + 1) = start + 1 + n from by omega] at hlast
      have ihh := ih (start + 1) f
        (if (rs start).payouts.length > 0 then acc ++ [rs start] else acc)
        (trace ++ ts start) h' hlt' hlast' (by omega)
      simp only [processAllAux, h0, hm0, if_true]
      rw [ihh]
      have hfunr : ((fun i => rs (start + i)) ∘ Nat.succ) = fun i => rs (start + 1 + i) :=
        funext (fun i => by
          simp only [Function.comp_apply]
          rw [show start + Nat.succ i = start + 1 + i from by omega])
      have hfunt : ((fun i => ts (start + i)) ∘ Nat.succ) = fun i => ts (start + 1 + i) :=
        funext (fun i => by
          simp only [Function.comp_apply]
          rw [show start + Nat.succ i = start + 1 + i from by omega])
      have hrange : List.range (n + 1 + 1) = 0 :: (List.range (n + 1)).map Nat.succ :=
        List.range_succ_eq_map (n + 1)
      rw [hrange]
      simp only [List.map_cons, List.map_map, hfunr, hfunt, Nat.add_zero,
        List.filter_cons, List.flatten_cons, List.append_assoc]
      by_cases hp : (rs start).payouts.length > 0
      · simp [hp, List.append_assoc]
      · have hp' : (rs start).payouts = [] :=
          List.eq_nil_of_length_eq_zero (by omega)
        simp [hp, hp', List.append_assoc]

/-- A round environment with canned successful responses: one pending page
with the given identifiers and `has_more` flag. -/
def cannedRoundEnv (hm : Bool) (ids : List String) : RoundEnv :=
  { list := fun _ => Except.ok { has_more := hm, data := ids.map witnessPayout }
    build := fun pids => Except.ok
      { unsigned_transaction := "utx", estimated_fee_lamports := 5, blockhash := "bh",
        last_valid_block_height := 7, payouts := pids.map witnessPayout,
        total_amount := 500, recipients_count := pids.length }
    broadcast := fun _ pids => Except.ok
      { signature := "sg", status := BatchStatus.paid, viewer_url := "vu",
        payouts := pids.map witnessPayout } }

/-- Claim C4: when every round up to the first `has_more = false` round
returns successfully, `processAll` performs exactly those rounds (its trace
is the concatenation of their traces, in round order), stops right after the
first round whose `has_more` is false, and returns the rounds whose payout
list is non-empty, in round order. -/
theorem processAll_appends_nonempty_until_has_more_false (env : Nat → RoundEnv)
    (signFn : String → String → String) (secretKey : String)
    (rs : Nat → ProcessPendingResult) (ts : Nat → List CallEvent) (n fuel : Nat)
    (h : ∀ i, i ≤ n → processBatch (env i) signFn secretKey none =
        (Except.ok (rs i), ts i))
    (hlt : ∀ i, i < n → (rs i).has_more = true)
    (hlast : (rs n).has_more = false)
    (hfuel : n < fuel) :
    processAll env signFn secretKey fuel =
      (some (Except.ok
        (((List.range (n + 1)).map rs).filter (fun r => decide (r.payouts.length > 0)))),
       ((List.range (n + 1)).map ts).flatten) := by
  have hspec := processAllAux_spec env signFn secretKey rs ts n 0 fuel [] []
    (fun i hi => by simpa using h i hi)
    (fun i hi => by simpa using hlt i hi)
    (by simpa using hlast) hfuel
  have hfr : (fun i => rs (0 + i)) = rs := funext (fun i => by rw [Nat.zero_add])
  have hft : (fun i => ts (0 + i)) = ts := funext (fun i => by rw [Nat.zero_add])
  rw [hfr, hft] at hspec
  simpa [processAll] using hspec

/-- Per-round environments exercising C4: round 0 settles two payouts and
reports more pending; round 1 finds nothing (empty page, `has_more = false`). -/
def envC4 : Nat → RoundEnv := fun k => if k = 0 then twoPayoutEnv else emptyListEnv

/-- Round results of `envC4`. -/
def rsC4 : Nat → ProcessPendingResult := fun k =>
  if k = 0 then
    { signature := "sg", status := BatchStatus.paid, viewer_url := "vu",
      payouts := [witnessPayout "po_1", witnessPayout "po_2"],
      total_amount := 500, has_more := true, failure_message := none }
  else
    { signature := "", status := BatchStatus.paid, viewer_url := "",
      payouts := [], total_amount := 0, has_more := false,
      failure_message := none }

/-- Round traces of `envC4`. -/
def tsC4 : Nat → List CallEvent := fun k =>
  if k = 0 then
    [CallEvent.listCall "pending" 10, CallEvent.buildCall ["po_1", "po_2"],
     CallEvent.signCall "utx", CallEvent.broadcastCall "utx:signed" ["po_1", "po_2"]]
  else
    [CallEvent.listCall "pending" 10]

/-- Witness for C4: with `envC4`, the loop runs two rounds, discards the
empty terminal round and keeps the first. -/
theorem processAll_appends_nonempty_witness :
    processAll envC4 stubSign "sk" 3 =
      (some (Except.ok
        (((List.range 2).map rsC4).filter (fun r => decide (r.payouts.length > 0)))),
       ((List.range 2).map tsC4).flatten) := by
  refine processAll_appends_nonempty_until_has_more_false envC4 stubSign "sk"
    rsC4 tsC4 1 3 ?_ ?_ rfl (by omega)
  · intro i hi
    interval_cases i
    · rfl
    · rfl
  · intro i hi
    interval_cases i
    rfl

/-- Per-round environments for the canned run `has_more = [true, true, false]`
with one payout per round: every round is non-empty. -/
def envC5 : Nat → RoundEnv := fun k =>
  cannedRoundEnv (decide (k < 2)) ["po_" ++ toString k]

/-- Counterexample for C5: under `has_more = [true, true, false]` with all
three rounds non-empty, each round's result is appended, so `processAll`
accumulates 3 results, not 2 as claimed. The first six conjuncts check the
scenario (per-round `has_more` flags and non-empty payout lists). -/
theorem processAll_three_rounds_cex :
    ((processBatch (envC5 0) stubSign "sk" none).1.map
        (fun r => r.has_more) = Except.ok true) ∧
    ((processBatch (envC5 1) stubSign "sk" none).1.map
        (fun r => r.has_more) = Except.ok true) ∧
    ((processBatch (envC5 2) stubSign "sk" none).1.map
        (fun r => r.has_more) = Except.ok false) ∧
    ((processBatch (envC5 0) stubSign "sk" none).1.map
        (fun r => r.payouts.length) = Except.ok 1) ∧
    ((processBatch (envC5 1) stubSign "sk" none).1.map
        (fun r => r.payouts.length) = Except.ok 1) ∧
    ((processBatch (envC5 2) stubSign "sk" none).1.map
        (fun r => r.payouts.length) = Except.ok 1) ∧
    ((processAll envC5 stubSign "sk" 5).1.map
        (Except.map List.length) = some (Except.ok 3)) ∧
    ((processAll envC5 stubSign "sk" 5).1.map
        (Except.map List.length) ≠ some (Except.ok 2)) := by
  refine ⟨rfl, rfl, rfl, rfl, rfl, rfl, rfl, ?_⟩
  rw [show (processAll envC5 stubSign "sk" 5).1.map (Except.map List.length) =
      some (Except.ok 3) from rfl]
  simp

/-- Amended claim C5: for a run whose three successive rounds succeed
non-empty with `has_more = true, true, false`, the loop performs exactly
three rounds (its trace is the concatenation of the three rounds' traces)
and the accumulated output contains exactly 3 SettlementRound values — the
terminal round is appended like any other non-empty round. -/
theorem processAll_three_rounds (env : Nat → RoundEnv)
    (signFn : String → String → String) (secretKey : String)
    (r0 r1 r2 : ProcessPendingResult) (t0 t1 t2 : List CallEvent) (fuel : Nat)
    (h0 : processBatch (env 0) signFn secretKey none = (Except.ok r0, t0))
    (h1 : processBatch (env 1) signFn secretKey none = (Except.ok r1, t1))
    (h2 : processBatch (env 2) signFn secretKey none = (Except.ok r2, t2))
    (hp0 : r0.payouts.length > 0) (hp1 : r1.payouts.length > 0)
    (hp2 : r2.payouts.length > 0)
    (hm0 : r0.has_more = true) (hm1 : r1.has_more = true)
    (hm2 : r2.has_more = false)
    (hfuel : 2 < fuel) :
    processAll env signFn secretKey fuel =
      (some (Except.ok [r0, r1, r2]), t0 ++ t1 ++ t2) := by
  obtain ⟨f, rfl⟩ : ∃ f, fuel = f + 1 + 1 + 1 := ⟨fuel - 3, by omega⟩
  simp only [processAll, processAllAux, h0, h1, h2, hm0, hm1, hm2, hp0, hp1, hp2,
    if_true, if_pos]
  simp [List.append_assoc]

/-- Witness for the amended C5: the canned `envC5` run yields exactly the
three rounds' results and traces. -/
theorem processAll_three_rounds_witness :
    processAll envC5 stubSign "sk" 5 =
      (some (Except.ok
        [{ signature := "sg", status := BatchStatus.paid, viewer_url := "vu",
           payouts := [witnessPayout "po_0"], total_amount := 500,
           has_more := true, failure_message := none },
         { signature := "sg", status := BatchStatus.paid, viewer_url := "vu",
           payouts := [witnessPayout "po_1"], total_amount := 500,
           has_more := true, failure_message := none },
         { signature := "sg", status := BatchStatus.paid, viewer_url := "vu",
           payouts := [witnessPayout "po_2"], total_amount := 500,
           has_more := false, failure_message := none }]),
       [CallEvent.listCall "pending" 10, CallEvent.buildCall ["po_0"],
        CallEvent.signCall "utx", CallEvent.broadcastCall "utx:signed" ["po_0"]] ++
       [CallEvent.listCall "pending" 10, CallEvent.buildCall ["po_1"],
        CallEvent.signCall "utx", CallEvent.broadcastCall "utx:signed" ["po_1"]] ++
       [CallEvent.listCall "pending" 10, CallEvent.buildCall ["po_2"],
        CallEvent.signCall "utx", CallEvent.broadcastCall "utx:signed" ["po_2"]]) := by
  refine processAll_three_rounds envC5 stubSign "sk" _ _ _ _ _ _ 5
    rfl rfl rfl ?_ ?_ ?_ rfl rfl rfl (by omega)
  · decide
  · decide
  · decide

/-- Claim C6: if round 0 succeeds with a non-empty payout list and
`has_more = true`, and round 1 reaches its broadcast call which fails with
`e`, then `processAll` surfaces exactly that failure, the operations
performed are exactly round 0's trace followed by round 1's four operations
(nothing after the failing broadcast, and no rollback of round 0's calls),
and round 0 is the only successfully completed round. -/
theorem processAll_broadcast_failure_aborts (env : Nat → RoundEnv)
    (signFn : String → String → String) (secretKey : String)
    (r0 : ProcessPendingResult) (t0 : List CallEvent)
    (resp1 : PayoutListResponse) (bres1 : PayoutBatchBuildResponse)
    (e : RemoteError) (fuel : Nat)
    (h0 : processBatch (env 0) signFn secretKey none = (Except.ok r0, t0))
    (hp0 : r0.payouts.length > 0)
    (hm0 : r0.has_more = true)
    (hlist1 : (env 1).list 10 = Except.ok resp1)
    (hne1 : resp1.data ≠ [])
    (hbuild1 : (env 1).build (resp1.data.map (fun p => p.id)) = Except.ok bres1)
    (hbc1 : (env 1).broadcast (signFn bres1.unsigned_transaction secretKey)
        (resp1.data.map (fun p => p.id)) = Except.error e)
    (hfuel : 1 < fuel) :
    processAll env signFn secretKey fuel =
      (some (Except.error e),
       t0 ++
         [CallEvent.listCall "pending" 10,
          CallEvent.buildCall (resp1.data.map (fun p => p.id)),
          CallEvent.signCall bres1.unsigned_transaction,
          CallEvent.broadcastCall (signFn bres1.unsigned_transaction secretKey)
            (resp1.data.map (fun p => p.id))]) := by
  obtain ⟨f, rfl⟩ : ∃ f, fuel = f + 1 + 1 := ⟨fuel - 2, by omega⟩
  have hmin : (min ((none : Option Int).getD 10) 10) = (10 : Int) := by simp
  have h1 : processBatch (env 1) signFn secretKey none =
      (Except.error e,
       [CallEvent.listCall "pending" 10,
        CallEvent.buildCall (resp1.data.map (fun p => p.id)),
        CallEvent.signCall bres1.unsigned_transaction,
        CallEvent.broadcastCall (signFn bres1.unsigned_transaction secretKey)
          (resp1.data.map (fun p => p.id))]) := by
    have hh := processBatch_eq_of_broadcast_error (env 1) signFn secretKey none
      resp1 bres1 e (by rw [hmin]; exact hlist1) hne1 hbuild1 hbc1
    rwa [hmin] at hh
  simp only [processAll, processAllAux, h0, hm0, hp0, if_true, if_pos, h1]
  simp

/-- Round-1 environment whose broadcast is rejected by the server. -/
def failingBroadcastEnv : RoundEnv :=
  { list := fun _ => Except.ok { has_more := true, data := [witnessPayout "po_3"] }
    build := fun pids => Except.ok
      { unsigned_transaction := "utx2", estimated_fee_lamports := 5, blockhash := "bh",
        last_valid_block_height := 7, payouts := pids.map witnessPayout,
        total_amount := 250, recipients_count := pids.length }
    broadcast := fun _ _ => Except.error { message := "rpc unavailable" } }

/-- Per-round environments for C6: a successful first round, then a round
whose broadcast fails. -/
def envC6 : Nat → RoundEnv := fun k => if k = 0 then twoPayoutEnv else failingBroadcastEnv

/-- Witness for C6: the failure of the second round's broadcast is surfaced
unmodified and the trace stops at that broadcast. -/
theorem processAll_broadcast_failure_witness :
    processAll envC6 stubSign "sk" 4 =
      (some (Except.error { message := "rpc unavailable" }),
       [CallEvent.listCall "pending" 10, CallEvent.buildCall ["po_1", "po_2"],
        CallEvent.signCall "utx",
        CallEvent.broadcastCall "utx:signed" ["po_1", "po_2"]] ++
         [CallEvent.listCall "pending" 10, CallEvent.buildCall ["po_3"],
          CallEvent.signCall "utx2",
          CallEvent.broadcastCall "utx2:signed" ["po_3"]]) := by
  refine processAll_broadcast_failure_aborts envC6 stubSign "sk" _ _
    { has_more := true, data := [witnessPayout "po_3"] } _ _ 4
    rfl ?_ rfl rfl ?_ rfl rfl (by omega)
  · decide
  · decide

/-! ## Claims about Webhooks.Verify -/

/-- The HMAC stub used by the webhook witnesses: tag the message with the
secret. -/
def hmacStub : String → String → String := fun secret msg => secret ++ "|" ++ msg

/-- Claim C7: with `tolerance > 0`, a header timestamp of exactly
`now - tolerance` (and a matching `v1` candidate) verifies; a timestamp of
`now - tolerance - 1` fails with the timestamp-tolerance error regardless of
the candidates; and with `tolerance = 0` the freshness check is disabled:
the timestamp-tolerance error can never be produced. -/
theorem verify_tolerance_boundary (hmac : String → String → String) (now : Int)
    (payload header secret : String) (tolerance : Int) (ts : String) :
    (tolerance > 0 →
      headerTimestampStr header = some ts →
      parseIntJS ts = some (now - tolerance) →
      hmac secret (toString (now - tolerance) ++ "." ++ payload) ∈
        headerSignatures header →
      Verify hmac now payload header secret tolerance = Except.ok ()) ∧
    (tolerance > 0 →
      headerTimestampStr header = some ts →
      parseIntJS ts = some (now - tolerance - 1) →
      headerSignatures header ≠ [] →
      Verify hmac now payload header secret tolerance =
        Except.error VerifyError.timestampTolerance) ∧
    (Verify hmac now payload header secret 0 ≠
      Except.error VerifyError.timestampTolerance) := by
  refine ⟨?_, ?_, ?_⟩
  · intro htol hts hparse hmem
    obtain ⟨tVal, hgt, hhead⟩ := headerGet_eq_some_of_timestampStr hts
    have hne : headerSignatures header ≠ [] := by
      intro hnil
      rw [hnil] at hmem
      simp at hmem
    obtain ⟨v1Val, hgv, hlist⟩ := headerGet_eq_some_of_signatures hne
    simp only [Verify, hgt, hgv, hhead, hparse]
    have hfresh : ¬ (now - (now - tolerance) > tolerance) := by omega
    rw [hlist]
    have hany := (signatures_any_iff (headerSignatures header)
      (hmac secret (jsNumString (some (now - tolerance)) ++ "." ++ payload))).mpr
    simp only [jsNumString] at hany
    simp [jsGtNaN, hfresh, jsNumString, hany hmem]
  · intro htol hts hparse hne
    obtain ⟨tVal, hgt, hhead⟩ := headerGet_eq_some_of_timestampStr hts
    obtain ⟨v1Val, hgv, hlist⟩ := headerGet_eq_some_of_signatures hne
    simp only [Verify, hgt, hgv, hhead, hparse]
    have hfresh : now - (now - tolerance - 1) > tolerance := by omega
    simp [jsGtNaN, hfresh, htol]
  · cases hgt : headerGet (parseHeader header) "t" with
    | none => simp [Verify, hgt]
    | some tVal =>
        cases hgv : headerGet (parseHeader header) "v1" with
        | none => simp [Verify, hgt, hgv]
        | some v1Val =>
            simp only [Verify, hgt, hgv]
            have h0 : ¬ ((0 : Int) > 0) := by omega
            simp only [decide_eq_false_iff_not.mpr h0, Bool.false_and,
              Bool.false_eq_true, if_false]
            by_cases hany : ((hvalToList v1Val).any (fun sig =>
                sig.utf8ByteSize ==
                    (hmac secret (jsNumString (parseIntJS (hvalHead tVal)) ++ "." ++
                      payload)).utf8ByteSize
                  && sig == hmac secret (jsNumString (parseIntJS (hvalHead tVal)) ++
                      "." ++ payload)) = true) <;>
              simp [hany]

/-- Witness for C7: at `now = 1000`, `tolerance = 300`, a `t=700` header with
a matching candidate verifies, a `t=699` header is rejected as stale, and
with tolerance 0 no staleness error arises. -/
theorem verify_tolerance_boundary_witness :
    Verify hmacStub 1000 "p" "t=700,v1=whsec|700.p" "whsec" 300 = Except.ok () ∧
    Verify hmacStub 1000 "p" "t=699,v1=whsec|699.p" "whsec" 300 =
      Except.error VerifyError.timestampTolerance ∧
    Verify hmacStub 1000 "p" "t=1,v1=x" "whsec" 0 ≠
      Except.error VerifyError.timestampTolerance := by
  refine ⟨?_, ?_, ?_⟩
  · exact (verify_tolerance_boundary hmacStub 1000 "p" "t=700,v1=whsec|700.p"
      "whsec" 300 "700").1 (by norm_num) rfl (by decide) (by decide)
  · exact (verify_tolerance_boundary hmacStub 1000 "p" "t=699,v1=whsec|699.p"
      "whsec" 300 "699").2.1 (by norm_num) rfl (by decide) (by decide)
  · exact (verify_tolerance_boundary hmacStub 1000 "p" "t=1,v1=x"
      "whsec" 0 "1").2.2

/-- Claim C8: parsing accumulates every `v1` pair into an ordered list in
first-seen order (the record's scalar-to-array promotion agrees with a
single left-to-right collection); verification succeeds whenever some
candidate in that list equals the expected HMAC of the signed payload — in
particular with two candidates of which only the second matches — and the
signature-mismatch error implies that no candidate matched. -/
theorem verify_accepts_any_candidate (hmac : String → String → String) (now : Int)
    (payload header secret : String) (tolerance : Int) :
    (headerSignatures header = specHeaderValues header "v1") ∧
    (∀ ts, headerTimestampStr header = some ts →
      (decide (tolerance > 0) && jsGtNaN now (parseIntJS ts) tolerance) = false →
      hmac secret (jsNumString (parseIntJS ts) ++ "." ++ payload) ∈
        headerSignatures header →
      Verify hmac now payload header secret tolerance = Except.ok ()) ∧
    (∀ ts s1 s2, headerTimestampStr header = some ts →
      (decide (tolerance > 0) && jsGtNaN now (parseIntJS ts) tolerance) = false →
      headerSignatures header = [s1, s2] →
      s1 ≠ hmac secret (jsNumString (parseIntJS ts) ++ "." ++ payload) →
      s2 = hmac secret (jsNumString (parseIntJS ts) ++ "." ++ payload) →
      Verify hmac now payload header secret tolerance = Except.ok ()) ∧
    (∀ ts, headerTimestampStr header = some ts →
      Verify hmac now payload header secret tolerance =
        Except.error VerifyError.signatureMismatch →
      hmac secret (jsNumString (parseIntJS ts) ++ "." ++ payload) ∉
        headerSignatures header) := by
  have hsucc : ∀ ts, headerTimestampStr header = some ts →
      (decide (tolerance > 0) && jsGtNaN now (parseIntJS ts) tolerance) = false →
      hmac secret (jsNumString (parseIntJS ts) ++ "." ++ payload) ∈
        headerSignatures header →
      Verify hmac now payload header secret tolerance = Except.ok () := by
    intro ts hts hfresh hmem
    obtain ⟨tVal, hgt, hhead⟩ := headerGet_eq_some_of_timestampStr hts
    have hne : headerSignatures header ≠ [] := by
      intro hnil
      rw [hnil] at hmem
      simp at hmem
    obtain ⟨v1Val, hgv, hlist⟩ := headerGet_eq_some_of_signatures hne
    simp only [Verify, hgt, hgv, hhead, hfresh, Bool.false_eq_true, if_false]
    rw [hlist, if_pos ((signatures_any_iff (headerSignatures header) _).mpr hmem)]
  refine ⟨headerValuesOf_parseHeader header "v1", hsucc, ?_, ?_⟩
  · intro ts s1 s2 hts hfresh hsigs hs1 hs2
    exact hsucc ts hts hfresh (by rw [hsigs, ← hs2]; simp)
  · intro ts hts hver
    obtain ⟨tVal, hgt, hhead⟩ := headerGet_eq_some_of_timestampStr hts
    intro hmem
    have hne : headerSignatures header ≠ [] := by
      intro hnil
      rw [hnil] at hmem
      simp at hmem
    obtain ⟨v1Val, hgv, hlist⟩ := headerGet_eq_some_of_signatures hne
    by_cases hfresh : (decide (tolerance > 0) &&
        jsGtNaN now (parseIntJS ts) tolerance) = false
    · rw [hsucc ts hts hfresh hmem] at hver
      cases hver
    · have hfresh' : (decide (tolerance > 0) &&
          jsGtNaN now (parseIntJS ts) tolerance) = true := by
        revert hfresh
        cases decide (tolerance > 0) && jsGtNaN now (parseIntJS ts) tolerance <;> simp
      rw [show Verify hmac now payload header secret tolerance =
          Except.error VerifyError.timestampTolerance from by
        simp only [Verify, hgt, hgv, hhead, hfresh', if_true]] at hver
      cases hver

/-- Witness for C8: a header with two `v1` candidates of which only the
second matches still verifies, and the record accumulation of that header
equals the first-seen-order list. -/
theorem verify_accepts_any_candidate_witness :
    headerSignatures "t=700,v1=bad,v1=whsec|700.p" =
        specHeaderValues "t=700,v1=bad,v1=whsec|700.p" "v1" ∧
    headerSignatures "t=700,v1=bad,v1=whsec|700.p" = ["bad", "whsec|700.p"] ∧
    Verify hmacStub 1000 "p" "t=700,v1=bad,v1=whsec|700.p" "whsec" 300 =
      Except.ok () := by
  have h := verify_accepts_any_candidate hmacStub 1000 "p"
    "t=700,v1=bad,v1=whsec|700.p" "whsec" 300
  refine ⟨h.1, rfl, ?_⟩
  exact h.2.2.1 "700" "bad" "whsec|700.p" rfl (by decide) rfl (by decide) rfl

/-- Claim C10: when the header's `t` value does not parse as a base-10
integer (`parseInt` yields `NaN`) and `tolerance > 0`, the freshness
comparison is false so the timestamp-tolerance error can never arise;
verification proceeds with the signed payload string `NaN.` followed by the
payload, succeeding exactly when some `v1` candidate equals the HMAC of that
string and failing with the signature-mismatch error otherwise. -/
theorem verify_unparseable_timestamp (hmac : String → String → String) (now : Int)
    (payload header secret : String) (tolerance : Int) (ts : String)
    (_htol : tolerance > 0)
    (hts : headerTimestampStr header = some ts)
    (hparse : parseIntJS ts = none)
    (hne : headerSignatures header ≠ []) :
    (Verify hmac now payload header secret tolerance ≠
      Except.error VerifyError.timestampTolerance) ∧
    (Verify hmac now payload header secret tolerance = Except.ok () ↔
      hmac secret ("NaN." ++ payload) ∈ headerSignatures header) ∧
    (hmac secret ("NaN." ++ payload) ∉ headerSignatures header →
      Verify hmac now payload header secret tolerance =
        Except.error VerifyError.signatureMismatch) := by
  obtain ⟨tVal, hgt, hhead⟩ := headerGet_eq_some_of_timestampStr hts
  obtain ⟨v1Val, hgv, hlist⟩ := headerGet_eq_some_of_signatures hne
  have hnanstr : ("NaN" : String) ++ "." ++ payload = "NaN." ++ payload := rfl
  have hver : Verify hmac now payload header secret tolerance =
      (if (headerSignatures header).any (fun sig =>
          sig.utf8ByteSize == (hmac secret ("NaN." ++ payload)).utf8ByteSize
            && sig == hmac secret ("NaN." ++ payload)) then
        Except.ok ()
      else
        Except.error VerifyError.signatureMismatch) := by
    simp only [Verify, hgt, hgv, hhead, hparse, jsGtNaN, Bool.and_false,
      Bool.false_eq_true, if_false, jsNumString, hnanstr, hlist]
  refine ⟨?_, ?_, ?_⟩
  · rw [hver]
    by_cases hany : ((headerSignatures header).any (fun sig =>
        sig.utf8ByteSize == (hmac secret ("NaN." ++ payload)).utf8ByteSize
          && sig == hmac secret ("NaN." ++ payload)) = true) <;>
      simp [hany]
  · rw [hver]
    constructor
    · intro hok
      by_cases hany : ((headerSignatures header).any (fun sig =>
          sig.utf8ByteSize == (hmac secret ("NaN." ++ payload)).utf8ByteSize
            && sig == hmac secret ("NaN." ++ payload)) = true)
      · exact (signatures_any_iff _ _).mp hany
      · rw [if_neg hany] at hok
        cases hok
    · intro hmem
      rw [if_pos ((signatures_any_iff _ _).mpr hmem)]
  · intro hmem
    rw [hver, if_neg (fun hany => hmem ((signatures_any_iff _ _).mp hany))]

/-- Witness for C10: a header with `t=xyz` never trips the staleness check
and verifies against the HMAC of the NaN-prefixed payload. -/
theorem verify_unparseable_timestamp_witness :
    Verify hmacStub 1000 "p" "t=xyz,v1=whsec|NaN.p" "whsec" 300 = Except.ok () ∧
    Verify hmacStub 1000 "p" "t=xyz,v1=whsec|NaN.p" "whsec" 300 ≠
      Except.error VerifyError.timestampTolerance := by
  have h := verify_unparseable_timestamp hmacStub 1000 "p" "t=xyz,v1=whsec|NaN.p"
    "whsec" 300 "xyz" (by norm_num) rfl rfl (by decide)
  exact ⟨h.2.1.mpr (by decide), h.1⟩

/-! ## Claim about the Signer -/

/-- Claim C9: for a validly encoded secret key and a parseable unsigned
transaction, signing succeeds, the output is the re-encoding (same textual
transport form) of the input transaction with exactly one signature
attached, and re-parsing the output yields a transaction whose signature
count is exactly one greater than the input's. The hypothesis `hroundtrip`
states that the external codec re-parses its own encoding of the signed
transaction. -/
theorem signTransaction_adds_one_signature (prims : SignerPrims)
    (unsigned secret : String) (keyBytes : List Nat) (tx : SolTransaction)
    (hkey : prims.bs58Decode secret = some keyBytes)
    (htx : prims.txDecode unsigned = some tx)
    (hroundtrip : prims.txDecode (prims.txEncode
        { tx with signatures :=
            tx.signatures ++ [prims.signMessage keyBytes tx.message] }) =
      some { tx with signatures :=
          tx.signatures ++ [prims.signMessage keyBytes tx.message] }) :
    SignTransaction prims unsigned secret =
      Except.ok (prims.txEncode
        { tx with signatures :=
            tx.signatures ++ [prims.signMessage keyBytes tx.message] }) ∧
    ((prims.txDecode (prims.txEncode
        { tx with signatures :=
            tx.signatures ++ [prims.signMessage keyBytes tx.message] })).map
        (fun t => t.signatures.length)) =
      some (tx.signatures.length + 1) := by
  constructor
  · simp only [SignTransaction, hkey, htx]
  · rw [hroundtrip]
    simp

/-- The unsigned transaction of the signer witness. -/
def witnessTxU : SolTransaction := { signatures := [], message := [1, 2, 3] }

/-- The signed transaction of the signer witness. -/
def witnessTxS : SolTransaction := { signatures := [[7]], message := [1, 2, 3] }

/-- A concrete codec/crypto instance for the signer witness. -/
def witnessPrims : SignerPrims :=
  { bs58Decode := fun s => if s = "key" then some [9] else none
    txDecode := fun s =>
      if s = "unsigned" then some witnessTxU
      else if s = "signed" then some witnessTxS
      else none
    txEncode := fun t => if t.signatures.isEmpty then "unsigned" else "signed"
    signMessage := fun _ _ => [7] }

/-- Witness for C9: the concrete instance signs the zero-signature
transaction into the one-signature transaction. -/
theorem signTransaction_adds_one_signature_witness :
    SignTransaction witnessPrims "unsigned" "key" = Except.ok "signed" ∧
    ((witnessPrims.txDecode "signed").map (fun t => t.signatures.length)) =
      some 1 := by
  have h := signTransaction_adds_one_signature witnessPrims "unsigned" "key"
    [9] witnessTxU rfl rfl (by decide)
  exact ⟨h.1.trans rfl, by simpa using h.2⟩

end Zoneless
